import Mathlib

/-!
Shallow embedding of the mini-tmpfiles line parser (src/parser.rs and
src/config_file.rs) and proofs about it.

Conventions of the embedding:
* Rust byte slices (`&[u8]` / `Box<[u8]>`) are `List ℕ`, each element a byte
  value `< 256` in practice.
* `u64`/`u32`/`u8` arithmetic is `ℕ` with explicit `< 2^64` (etc.) checks
  exactly where the Rust code performs checked arithmetic.
* `std::time::Duration` is a pair of second and nanosecond counts.
* Fallible Rust functions returning `Result` become `Except`.
* `take_field`'s hex-escape decoder asserts that any `u8::from_str_radix`
  failure has kind `InvalidDigit`.  For an unsigned type `from_str_radix`
  strips only a leading plus sign (its minus arm is gated on signedness)
  and two hex digits cannot overflow a `u8`, so every failure there is
  indeed `InvalidDigit`, the assertion can never fire, and the decoder is
  modelled as a plain fallible function.
-/

deriving instance DecidableEq for Except

namespace MiniTmpfiles

/-- Model of `std::time::Duration`: seconds plus sub-second nanoseconds.
In every value produced by the parser, `nanos < 10^9` and `secs < 2^64`. -/
structure Duration where
  secs : ℕ
  nanos : ℕ
deriving DecidableEq, Repr

/-- Total nanosecond count of a duration (used to state exactness). -/
def durNanos (d : Duration) : ℕ := d.secs * 10 ^ 9 + d.nanos

/-- `Duration` multiplication by an integer, normalising nanoseconds into
seconds.  The parser's static unit table only uses it far below the
saturation range, so the `saturating_mul` of the source never saturates and
plain arithmetic is exact. -/
def durMul (d : Duration) (k : ℕ) : Duration :=
  ⟨d.secs * k + d.nanos * k / 10 ^ 9, d.nanos * k % 10 ^ 9⟩

/-- `Duration` addition (`saturating_add` in the source's static table;
never saturates at the magnitudes used there). -/
def durAdd (a b : Duration) : Duration :=
  ⟨a.secs + b.secs + (a.nanos + b.nanos) / 10 ^ 9, (a.nanos + b.nanos) % 10 ^ 9⟩

/-- `Duration::checked_add`: seconds are added with a `u64` overflow check,
a nanosecond carry adds one more checked second. -/
def durCheckedAdd (a b : Duration) : Option Duration :=
  if a.secs + b.secs < 2 ^ 64 then
    if 10 ^ 9 ≤ a.nanos + b.nanos then
      if a.secs + b.secs + 1 < 2 ^ 64 then
        some ⟨a.secs + b.secs + 1, a.nanos + b.nanos - 10 ^ 9⟩
      else none
    else some ⟨a.secs + b.secs, a.nanos + b.nanos⟩
  else none

-- The static unit durations of parser.rs lines 19-35.
def NANOSECOND : Duration := ⟨0, 1⟩
def MICROSECOND : Duration := durMul NANOSECOND 1000
def MILLISECOND : Duration := durMul MICROSECOND 1000
def SECOND : Duration := durMul MILLISECOND 1000
def MINUTE : Duration := durMul SECOND 60
def HOUR : Duration := durMul MINUTE 60
def DAY : Duration := durMul HOUR 24
def WEEK : Duration := durMul DAY 7

-- "This is how systemd defines them": month = 30 d 10 h 30 min, year = 365 d 6 h.
def MONTH : Duration := durAdd (durAdd (durMul DAY 30) (durMul HOUR 10)) (durMul MINUTE 30)
def YEAR : Duration := durAdd (durMul DAY 365) (durMul HOUR 6)

/-- Model of `std::num::IntErrorKind` (the cases integer parsing can
produce here). -/
inductive IntErrorKind where
  | Empty
  | InvalidDigit
  | PosOverflow
  | NegOverflow
deriving DecidableEq, Repr

/-- Model of the base64 crate's `DecodeError` (byte offsets elided: the
parser never inspects them). -/
inductive DecodeError where
  | InvalidByte (b : ℕ)
  | InvalidLength
  | InvalidLastSymbol (b : ℕ)
  | InvalidPadding
deriving DecidableEq, Repr

/-- `FieldParseError` of parser.rs lines 100-110. -/
inductive FieldParseError where
  | UnrecognizedEscape (b : ℕ)
  | TrailingBackslash
  | UnfinishedHexEscape
  | UnsupportedOctalEscape
  | QuoteInUnquotedField
  | InvalidHexEscape
  | JunkAfterQuotes
  | UnfinishedQuote
deriving DecidableEq, Repr

/-- `CleanupParseError` of parser.rs lines 118-127. -/
inductive CleanupParseError where
  | InvalidDurationInt (k : IntErrorKind)
  | InvalidDurationKeyword (key : List ℕ)
  | DuplicateCleanupSpecifier (b : ℕ)
  | InvalidCleanupSpecifier (b : ℕ)
  | Malformed (bytes : List ℕ)
  | OverflowedDuration (bytes : List ℕ)
  | EmptyCleanupSpecifierList
deriving DecidableEq, Repr

/-- `ParseError` of parser.rs lines 73-92. -/
inductive ParseError where
  | IllegalParseType (b : ℕ)
  | LeadingWhitespace
  | EmptyParseType
  | InvalidTypeCombination (b c : ℕ)
  | InvalidTypeModifier (b : ℕ)
  | InvalidMode
  | DuplicateTypeModifier (b : ℕ)
  | IDKWhatAServiceCredentialIs
  | InvalidCleanupAge (e : CleanupParseError)
  | InvalidUsername
  | NullInPath
  | Field (e : FieldParseError)
  | NonabsolutePath
  | InvalidSpecifier (b : ℕ)
  | EmptyPath
  | IncompleteSpecifier
  | Base64Decode (e : DecodeError)
deriving DecidableEq, Repr

/-- `LineAction` of config_file.rs lines 8-32. -/
inductive LineAction where
  | CreateFile
  | WriteFile
  | CreateAndCleanUpDirectory
  | CreateAndRemoveDirectory
  | CleanUpDirectory
  | CreateFifo
  | CreateSymlink
  | CreateCharDevice
  | CreateBlockDevice
  | Copy
  | Ignore
  | IgnoreNonRecursive
  | Remove
  | RemoveRecursive
  | SetMode
  | SetModeRecursive
  | SetXattr
  | SetXattrRecursive
  | SetAttr
  | SetAttrRecursive
  | SetAcl
  | SetAclRecursive
deriving DecidableEq, Repr

/-- `LineType` of config_file.rs lines 34-46. -/
structure LineType where
  action : LineAction
  recreate : Bool
  boot : Bool
  noerror : Bool
  force : Bool
deriving DecidableEq, Repr

/-- `FileOwner` of config_file.rs lines 48-52.  A Rust `String` is kept as
its UTF-8 bytes. -/
inductive FileOwner where
  | Id (id : ℕ)
  | Name (name : List ℕ)
deriving DecidableEq, Repr

/-- `CleanupAge` of config_file.rs lines 54-80. -/
structure CleanupAge where
  age : Duration
  second_level : Bool
  consider_atime : Bool
  consider_atime_dir : Bool
  consider_btime : Bool
  consider_btime_dir : Bool
  consider_ctime : Bool
  consider_ctime_dir : Bool
  consider_mtime : Bool
  consider_mtime_dir : Bool
deriving DecidableEq, Repr

/-- `CleanupAge::EMPTY` (config_file.rs lines 82-95). -/
def CleanupAge.EMPTY : CleanupAge where
  age := ⟨0, 0⟩
  second_level := false
  consider_atime := true
  consider_atime_dir := true
  consider_btime := true
  consider_btime_dir := true
  consider_ctime := true
  consider_ctime_dir := false
  consider_mtime := true
  consider_mtime_dir := true

/-- `CleanupAge::default()` (`#[derive(Default)]`): everything zero/false. -/
def CleanupAge.defaultVal : CleanupAge where
  age := ⟨0, 0⟩
  second_level := false
  consider_atime := false
  consider_atime_dir := false
  consider_btime := false
  consider_btime_dir := false
  consider_ctime := false
  consider_ctime_dir := false
  consider_mtime := false
  consider_mtime_dir := false

/-- `ModeBehavior` of config_file.rs lines 211-217. -/
inductive ModeBehavior where
  | Default
  | Masked
  | KeepExisting
deriving DecidableEq, Repr

/-- `Mode` of config_file.rs lines 205-209. -/
structure Mode where
  value : ℕ
  mode_behavior : ModeBehavior
deriving DecidableEq, Repr

/-- `Specifier` of config_file.rs lines 230-256. -/
inductive Specifier where
  | Architecture
  | ImageVersion
  | BootID
  | BuildID
  | CacheDir
  | UserGroup
  | UserGID
  | UserHome
  | Hostname
  | ShortHostname
  | LogDir
  | MachineID
  | ImageID
  | OperatingSystemID
  | StateDir
  | RuntimeDir
  | TempDir
  | Username
  | UserUID
  | KernelRelease
  | PersistentTempDir
  | VersionID
  | VariantID
  | PercentSign
deriving DecidableEq, Repr

/-- `Specifier::parse` (config_file.rs lines 258-289).  Note the source maps
byte 116 (t) to `TempDir` and byte 84 (T) to `RuntimeDir`, the opposite of
what the enum's own comments say; we follow the code. -/
def Specifier.parse (ch : ℕ) : Option Specifier :=
  if ch = 97 then some .Architecture
  else if ch = 65 then some .ImageVersion
  else if ch = 98 then some .BootID
  else if ch = 66 then some .BuildID
  else if ch = 67 then some .CacheDir
  else if ch = 103 then some .UserGroup
  else if ch = 71 then some .UserGID
  else if ch = 104 then some .UserHome
  else if ch = 72 then some .Hostname
  else if ch = 108 then some .ShortHostname
  else if ch = 76 then some .LogDir
  else if ch = 109 then some .MachineID
  else if ch = 77 then some .ImageID
  else if ch = 111 then some .OperatingSystemID
  else if ch = 83 then some .StateDir
  else if ch = 116 then some .TempDir
  else if ch = 84 then some .RuntimeDir
  else if ch = 117 then some .Username
  else if ch = 85 then some .UserUID
  else if ch = 118 then some .KernelRelease
  else if ch = 86 then some .PersistentTempDir
  else if ch = 119 then some .VersionID
  else if ch = 87 then some .VariantID
  else if ch = 37 then some .PercentSign
  else none

/-- `SpecifierString` (config_file.rs line 292): the literal bytes before the
first percent sign, then a list of (specifier, following literal) pairs. -/
structure SpecifierString where
  leading : List ℕ
  sections : List (Specifier × List ℕ)
deriving DecidableEq, Repr

/-! ## Integer parsing (models of `from_str` / `from_str_radix`) -/

/-- `char::to_digit(radix)`: ASCII digits, then lower- and upper-case
letters, valid when the value is below the radix. -/
def digitVal (radix b : ℕ) : Option ℕ :=
  if 48 ≤ b ∧ b ≤ 57 ∧ b - 48 < radix then some (b - 48)
  else if 97 ≤ b ∧ b ≤ 122 ∧ b - 87 < radix then some (b - 87)
  else if 65 ≤ b ∧ b ≤ 90 ∧ b - 55 < radix then some (b - 55)
  else none

/-- Accumulating loop of `from_str_radix` for a non-negative number.  The
source checks overflow at each `checked_mul`/`checked_add`; since the
accumulator grows monotonically this is equivalent to the single bound
check per step performed here. -/
def posDigitsVal (radix bound : ℕ) : List ℕ → ℕ → Option ℕ
  | [], acc => some acc
  | b :: rest, acc =>
    match digitVal radix b with
    | none => none
    | some d =>
      if acc * radix + d < bound then posDigitsVal radix bound rest (acc * radix + d)
      else none

/-- `uN::from_str_radix` (also used through `FromStr`), for the unsigned
types the parser uses: an optional single leading plus sign, then at least
one digit.  The minus-sign arm of the core implementation is gated on
signedness, so for an unsigned type a leading minus byte is never stripped:
it reaches the digit loop and fails as an invalid digit (here `digitVal`
of the minus byte is `none`).  `bound` is `2^N`.  Returns `none` for every
error (empty, invalid digit, overflow); the call sites do not distinguish
the error kinds. -/
def fromStrRadixNat (radix bound : ℕ) (s : List ℕ) : Option ℕ :=
  match s with
  | [] => none
  | b :: rest =>
    if b = 43 then (if rest = [] then none else posDigitsVal radix bound rest 0)
    else posDigitsVal radix bound (b :: rest) 0

/-- `u64::from_str` restricted to the all-ASCII-digit strings produced by
`take_from_slice_while(u8::is_ascii_digit)` (a sign byte can never occur
there), keeping the error kind as the source stores it in
`InvalidDurationInt`. -/
def parseU64Go : List ℕ → ℕ → Except IntErrorKind ℕ
  | [], acc => .ok acc
  | b :: rest, acc =>
    match digitVal 10 b with
    | none => .error .InvalidDigit
    | some d =>
      if acc * 10 + d < 2 ^ 64 then parseU64Go rest (acc * 10 + d)
      else .error .PosOverflow

def parseU64 (digits : List ℕ) : Except IntErrorKind ℕ :=
  match digits with
  | [] => .error .Empty
  | _ :: _ => parseU64Go digits 0

/-! ## Duration parsing (parser.rs lines 37-71 and 155-187) -/

/-- `u8::is_ascii_digit`. -/
def isAsciiDigit (b : ℕ) : Bool := decide (48 ≤ b ∧ b ≤ 57)

/-- The predicate selecting a unit keyword:
`c.is_ascii_alphabetic() || !c.is_ascii()`. -/
def isKeyByte (b : ℕ) : Bool :=
  decide ((65 ≤ b ∧ b ≤ 90) ∨ (97 ≤ b ∧ b ≤ 122) ∨ 128 ≤ b)

/-- `DURATION_KEYWORDS` (parser.rs lines 37-71).  The two three-byte entries
are the source's literal `\xcd\xbcs` and `\xc2\xb5s` spellings for a mu
character followed by s. -/
def durationKeyword (key : List ℕ) : Option Duration :=
  if key = [110, 115, 101, 99] then some NANOSECOND -- nsec
  else if key = [110, 115] then some NANOSECOND -- ns
  else if key = [117, 115, 101, 99] then some MICROSECOND -- usec
  else if key = [117, 115] then some MICROSECOND -- us
  else if key = [205, 188, 115] then some MICROSECOND
  else if key = [194, 181, 115] then some MICROSECOND
  else if key = [109, 115, 101, 99] then some MILLISECOND -- msec
  else if key = [109, 115] then some MILLISECOND -- ms
  else if key = [115, 101, 99, 111, 110, 100, 115] then some SECOND -- seconds
  else if key = [115, 101, 99, 111, 110, 100] then some SECOND -- second
  else if key = [115, 101, 99] then some SECOND -- sec
  else if key = [115] then some SECOND -- s
  else if key = [] then some SECOND -- empty unit defaults to seconds
  else if key = [109, 105, 110, 117, 116, 101, 115] then some MINUTE -- minutes
  else if key = [109, 105, 110, 117, 116, 101] then some MINUTE -- minute
  else if key = [109, 105, 110] then some MINUTE -- min
  else if key = [109] then some MINUTE -- m
  else if key = [104, 111, 117, 114, 115] then some HOUR -- hours
  else if key = [104, 111, 117, 114] then some HOUR -- hour
  else if key = [104, 114] then some HOUR -- hr
  else if key = [104] then some HOUR -- h
  else if key = [109, 111, 110, 116, 104, 115] then some MONTH -- months
  else if key = [109, 111, 110, 116, 104] then some MONTH -- month
  else if key = [77] then some MONTH -- M
  else if key = [100, 97, 121, 115] then some DAY -- days
  else if key = [100, 97, 121] then some DAY -- day
  else if key = [100] then some DAY -- d
  else if key = [119, 101, 101, 107, 115] then some WEEK -- weeks
  else if key = [119, 101, 101, 107] then some WEEK -- week
  else if key = [119] then some WEEK -- w
  else if key = [121, 101, 97, 114, 115] then some YEAR -- years
  else if key = [121, 101, 97, 114] then some YEAR -- year
  else if key = [121] then some YEAR -- y
  else none

/-- `parse_duration_part` (parser.rs lines 155-176).  Returns the parsed
part together with the remaining input.  `original_input` of the source is
the argument itself.  The casts `(total_nanos % 10^9) as u32` and
`(total_nanos / 10^9) as u64` are exact because `subsec_nanos < 10^9` and
`count < 2^64`. -/
def parse_duration_part (input : List ℕ) :
    Except CleanupParseError (Duration × List ℕ) :=
  match parseU64 (input.takeWhile isAsciiDigit) with
  | .error k => .error (.InvalidDurationInt k)
  | .ok count =>
    match durationKeyword ((input.dropWhile isAsciiDigit).takeWhile isKeyByte) with
    | none =>
      .error (.InvalidDurationKeyword
        ((input.dropWhile isAsciiDigit).takeWhile isKeyByte))
    | some unit =>
      if unit.secs * count < 2 ^ 64 then -- checked_mul
        if unit.secs * count + unit.nanos * count / 10 ^ 9 < 2 ^ 64 then -- checked_add
          .ok (⟨unit.secs * count + unit.nanos * count / 10 ^ 9,
              unit.nanos * count % 10 ^ 9⟩,
            (input.dropWhile isAsciiDigit).dropWhile isKeyByte)
        else .error (.OverflowedDuration input)
      else .error (.OverflowedDuration input)

/-- The `while !input.is_empty()` loop of `parse_duration` (parser.rs lines
181-185).  `fuel` only bounds the iteration count so the recursion is
structural; since every successful part consumes at least one byte (the
digit string must be non-empty), `fuel = input.length` always suffices and
the zero-fuel arm is unreachable from `parse_duration`. -/
def parse_duration_go (orig : List ℕ) : ℕ → Duration → List ℕ →
    Except CleanupParseError Duration
  | _, acc, [] => .ok acc
  | 0, acc, _ :: _ => .ok acc -- unreachable: fuel is at least the input length
  | fuel + 1, acc, b :: rest =>
    match parse_duration_part (b :: rest) with
    | .error e => .error e
    | .ok (d, rest2) =>
      match durCheckedAdd acc d with
      | none => .error (.OverflowedDuration orig)
      | some acc2 => parse_duration_go orig fuel acc2 rest2

/-- `parse_duration` (parser.rs lines 178-187). -/
def parse_duration (input : List ℕ) : Except CleanupParseError Duration :=
  match parse_duration_part input with
  | .error e => .error e
  | .ok (acc, rest) => parse_duration_go input rest.length acc rest

/-- Modelled from the spec: the unbounded mathematical value (in
nanoseconds) of one duration part, following the spec's reading of the
duration grammar — magnitude times unit, with no overflow cut-off.  Used
only to compare `parse_duration` against wrap-free summation. -/
def duration_part_spec (input : List ℕ) : Option (ℕ × List ℕ) :=
  match parseU64 (input.takeWhile isAsciiDigit) with
  | .error _ => none
  | .ok count =>
    match durationKeyword ((input.dropWhile isAsciiDigit).takeWhile isKeyByte) with
    | none => none
    | some unit =>
      some (count * durNanos unit, (input.dropWhile isAsciiDigit).dropWhile isKeyByte)

/-- Modelled from the spec: unbounded sum of all duration parts. -/
def duration_spec_go : ℕ → ℕ → List ℕ → Option ℕ
  | _, acc, [] => some acc
  | 0, _, _ :: _ => none -- unreachable with sufficient fuel
  | fuel + 1, acc, b :: rest =>
    match duration_part_spec (b :: rest) with
    | none => none
    | some (n, rest2) => duration_spec_go fuel (acc + n) rest2

/-- Modelled from the spec: the exact total of a duration field in
nanoseconds, with no representation limit. -/
def duration_spec (input : List ℕ) : Option ℕ :=
  match duration_part_spec input with
  | none => none
  | some (n, rest) => duration_spec_go rest.length n rest

/-! ## Cleanup age (parser.rs lines 189-243) -/

/-- The flag-letter loop of `parse_cleanup_age_by` (parser.rs lines
199-216): each of the letters aAbBcCmM sets its flag, duplicates and
unknown letters are errors. -/
def cleanup_by_go : List ℕ → CleanupAge → Except CleanupParseError CleanupAge
  | [], flags => .ok flags
  | ch :: rest, flags =>
    if ch = 97 then
      if flags.consider_atime then .error (.DuplicateCleanupSpecifier ch)
      else cleanup_by_go rest { flags with consider_atime := true }
    else if ch = 65 then
      if flags.consider_atime_dir then .error (.DuplicateCleanupSpecifier ch)
      else cleanup_by_go rest { flags with consider_atime_dir := true }
    else if ch = 98 then
      if flags.consider_btime then .error (.DuplicateCleanupSpecifier ch)
      else cleanup_by_go rest { flags with consider_btime := true }
    else if ch = 66 then
      if flags.consider_btime_dir then .error (.DuplicateCleanupSpecifier ch)
      else cleanup_by_go rest { flags with consider_btime_dir := true }
    else if ch = 99 then
      if flags.consider_ctime then .error (.DuplicateCleanupSpecifier ch)
      else cleanup_by_go rest { flags with consider_ctime := true }
    else if ch = 67 then
      if flags.consider_ctime_dir then .error (.DuplicateCleanupSpecifier ch)
      else cleanup_by_go rest { flags with consider_ctime_dir := true }
    else if ch = 109 then
      if flags.consider_mtime then .error (.DuplicateCleanupSpecifier ch)
      else cleanup_by_go rest { flags with consider_mtime := true }
    else if ch = 77 then
      if flags.consider_mtime_dir then .error (.DuplicateCleanupSpecifier ch)
      else cleanup_by_go rest { flags with consider_mtime_dir := true }
    else .error (.InvalidCleanupSpecifier ch)

/-- `parse_cleanup_age_by` (parser.rs lines 189-219): an optional leading
tilde sets `second_level`, the remaining list of flag letters must be
non-empty. -/
def parse_cleanup_age_by (input : List ℕ) : Except CleanupParseError CleanupAge :=
  let second_level := input.take 1 = [126] -- take_string_from_slice(&mut input, "~")
  let input2 := if second_level then input.drop 1 else input
  if input2 = [] then .error .EmptyCleanupSpecifierList
  else cleanup_by_go input2 { CleanupAge.defaultVal with second_level := second_level }

/-- Model of `slice::split(|&c| c == sep)`: always returns at least one
(possibly empty) piece. -/
def splitOnByte (sep : ℕ) : List ℕ → List (List ℕ)
  | [] => [[]]
  | b :: rest =>
    if b = sep then [] :: splitOnByte sep rest
    else
      match splitOnByte sep rest with
      | [] => [[b]] -- unreachable: splitOnByte never returns []
      | p :: ps => (b :: p) :: ps

/-- `parse_cleanup_age` (parser.rs lines 231-243): split the field on colon
bytes; one piece is a bare duration, two pieces are flags and duration,
more are `Malformed`.  (The source's zero-piece arm is `unreachable!()`;
`splitOnByte` indeed never returns an empty list, and the catch-all arm
here maps it to `Malformed` like the three-or-more case.) -/
def parse_cleanup_age (input : List ℕ) : Except CleanupParseError CleanupAge :=
  match splitOnByte 58 input with
  | [duration] =>
    match parse_duration duration with
    | .error e => .error e
    | .ok d => .ok { CleanupAge.EMPTY with age := d }
  | [flags, duration] =>
    match parse_cleanup_age_by flags with
    | .error e => .error e
    | .ok ca =>
      match parse_duration duration with
      | .error e => .error e
      | .ok d => .ok { ca with age := d }
  | _ => .error (.Malformed input)

/-! ## Specifier strings and paths (parser.rs lines 245-294) -/

/-- The specifier-section loop of `parse_specifiers` (parser.rs lines
250-260), restructured as a byte-by-byte structural scan: `spec_scan`
accumulates the literal segment following the current specifier until the
next percent byte (the source's `take_from_slice_while(|&ch| ch != b'%')`)
or the end of input. -/
def spec_scan : List ℕ → Specifier → List ℕ →
    Except ParseError (List (Specifier × List ℕ))
  | [], sp, seg => .ok [(sp, seg)]
  | 37 :: rest, sp, seg =>
    match rest with
    | [] => .error .IncompleteSpecifier
    | h :: tail =>
      match Specifier.parse h with
      | none => .error (.InvalidSpecifier h)
      | some sp2 =>
        match spec_scan tail sp2 [] with
        | .error e => .error e
        | .ok l => .ok ((sp, seg) :: l)
  | b :: rest, sp, seg => spec_scan rest sp (seg ++ [b])

/-- Entry into the loop: the input here is everything from the first
percent byte on (so its head, when present, is a percent byte — the
source's `assert!` that a percent is stripped can never fail). -/
def spec_sections (input : List ℕ) : Except ParseError (List (Specifier × List ℕ)) :=
  match input with
  | [] => .ok []
  | _ :: rest =>
    match rest with
    | [] => .error .IncompleteSpecifier
    | h :: tail =>
      match Specifier.parse h with
      | none => .error (.InvalidSpecifier h)
      | some sp => spec_scan tail sp []

/-- `parse_specifiers` (parser.rs lines 245-265). -/
def parse_specifiers (input : List ℕ) : Except ParseError SpecifierString :=
  if input.contains 37 then
    match spec_sections (input.dropWhile (fun b => b != 37)) with
    | .error e => .error e
    | .ok l => .ok ⟨input.takeWhile (fun b => b != 37), l⟩
  else .ok ⟨input, []⟩

/-- The checks `parse_path` performs after `parse_specifiers` (parser.rs
lines 269-293): reject NUL bytes, accept a leading slash
(`starts_with(b"/")`, i.e. the first literal byte is 47), reject other
non-empty literal prefixes, and for a purely-specifier path accept exactly
the whitelist of absolute-expanding first specifiers. -/
def parse_path_checks (s : SpecifierString) : Except ParseError SpecifierString :=
  if s.leading.contains 0 ∨ s.sections.any (fun p => p.2.contains 0) then
    .error .NullInPath
  else if s.leading.head? = some 47 then .ok s
  else if s.leading ≠ [] then .error .NonabsolutePath
  else
    match s.sections with
    | [] => .error .EmptyPath
    | (sp, _) :: _ =>
      if sp = .CacheDir ∨ sp = .UserHome ∨ sp = .LogDir ∨ sp = .StateDir ∨
          sp = .RuntimeDir ∨ sp = .TempDir ∨ sp = .PersistentTempDir then .ok s
      else .error .NonabsolutePath

/-- `parse_path` (parser.rs lines 267-294). -/
def parse_path (input : List ℕ) : Except ParseError SpecifierString :=
  match parse_specifiers input with
  | .error e => .error e
  | .ok s => parse_path_checks s

/-! ## Mode and user fields (parser.rs lines 529-561) -/

/-- The digit part of `parse_mode` after the behavior prefix is stripped:
the length must be 3 to 4 and the remaining bytes must parse in base 8. -/
def parse_mode_digits (digits : List ℕ) (mode_behavior : ModeBehavior) :
    Except ParseError Mode :=
  if 3 ≤ digits.length ∧ digits.length ≤ 4 then
    match fromStrRadixNat 8 (2 ^ 32) digits with
    | some v => .ok ⟨v, mode_behavior⟩
    | none => .error .InvalidMode
  else .error .InvalidMode

/-- `parse_mode` (parser.rs lines 529-551).  The `str::from_utf8` check of
the source is subsumed: `u32::from_str_radix(_, 8)` only ever accepts
strings made of ASCII sign and digit characters, and every byte string it
accepts is valid UTF-8; any other input fails with `InvalidMode` through
either check. -/
def parse_mode (input : List ℕ) : Except ParseError Mode :=
  if input.head? = some 58 then parse_mode_digits (input.drop 1) .KeepExisting
  else if input.head? = some 126 then parse_mode_digits (input.drop 1) .Masked
  else parse_mode_digits input .Default

/-- The base-8 integer denoted by a string of ASCII octal digits (used to
state the round-trip property of `parse_mode`). -/
def octVal (digits : List ℕ) : ℕ :=
  digits.foldl (fun a b => a * 8 + (b - 48)) 0

/-- The part of a mode field after its optional single behavior-selecting
first byte (a colon or tilde), exactly as `parse_mode` strips it. -/
def modeDigits (input : List ℕ) : List ℕ :=
  if input.head? = some 58 ∨ input.head? = some 126 then input.drop 1 else input

/-- UTF-8 validity of a byte list, as `str::from_utf8` checks it. -/
def isCont (b : ℕ) : Bool := decide (128 ≤ b ∧ b ≤ 191)

def validUtf8 : List ℕ → Bool
  | [] => true
  | b :: rest =>
    if b ≤ 127 then validUtf8 rest
    else if 194 ≤ b ∧ b ≤ 223 then
      match rest with
      | c :: r => isCont c && validUtf8 r
      | [] => false
    else if b = 224 then
      match rest with
      | c :: d :: r => decide (160 ≤ c ∧ c ≤ 191) && isCont d && validUtf8 r
      | _ => false
    else if (225 ≤ b ∧ b ≤ 236) ∨ b = 238 ∨ b = 239 then
      match rest with
      | c :: d :: r => isCont c && isCont d && validUtf8 r
      | _ => false
    else if b = 237 then
      match rest with
      | c :: d :: r => decide (128 ≤ c ∧ c ≤ 159) && isCont d && validUtf8 r
      | _ => false
    else if b = 240 then
      match rest with
      | c :: d :: e :: r => decide (144 ≤ c ∧ c ≤ 191) && isCont d && isCont e && validUtf8 r
      | _ => false
    else if 241 ≤ b ∧ b ≤ 243 then
      match rest with
      | c :: d :: e :: r => isCont c && isCont d && isCont e && validUtf8 r
      | _ => false
    else if b = 244 then
      match rest with
      | c :: d :: e :: r => decide (128 ≤ c ∧ c ≤ 143) && isCont d && isCont e && validUtf8 r
      | _ => false
    else false

/-- `parse_user` (parser.rs lines 552-561): the bytes must be UTF-8; a
string parsing as `u32` is an `Id`, anything else is kept as a `Name`. -/
def parse_user (input : List ℕ) : Except ParseError FileOwner :=
  if validUtf8 input then
    match fromStrRadixNat 10 (2 ^ 32) input with
    | some id => .ok (.Id id)
    | none => .ok (.Name input)
  else .error .InvalidUsername

/-! ## Type and modifier field (parser.rs lines 563-651) -/

/-- The action-letter table of `parse_type` (parser.rs lines 571-600):
first byte ↦ (action, the possibly rewritten character the later checks
use, the initial value of `plus`).  Byte 70 (the letter F) is sugar for f
with `plus` forced on and the character rewritten to f (byte 102); all
other letters keep themselves and start with `plus` off. -/
def actionTable : List (ℕ × LineAction × ℕ × Bool) :=
  [(102, .CreateFile, 102, false), -- f
   (70, .CreateFile, 102, true), -- F
   (119, .WriteFile, 119, false), -- w
   (100, .CreateAndCleanUpDirectory, 100, false), -- d
   (118, .CreateAndCleanUpDirectory, 118, false), -- v
   (113, .CreateAndCleanUpDirectory, 113, false), -- q
   (81, .CreateAndCleanUpDirectory, 81, false), -- Q
   (68, .CreateAndRemoveDirectory, 68, false), -- D
   (101, .CleanUpDirectory, 101, false), -- e
   (112, .CreateFifo, 112, false), -- p
   (76, .CreateSymlink, 76, false), -- L
   (99, .CreateCharDevice, 99, false), -- c
   (98, .CreateBlockDevice, 98, false), -- b
   (67, .Copy, 67, false), -- C
   (120, .Ignore, 120, false), -- x
   (88, .IgnoreNonRecursive, 88, false), -- X
   (114, .Remove, 114, false), -- r
   (82, .RemoveRecursive, 82, false), -- R
   (122, .SetMode, 122, false), -- z
   (90, .SetModeRecursive, 90, false), -- Z
   (116, .SetXattr, 116, false), -- t
   (84, .SetXattrRecursive, 84, false), -- T
   (104, .SetAttr, 104, false), -- h
   (72, .SetAttrRecursive, 72, false), -- H
   (97, .SetAcl, 97, false), -- a
   (65, .SetAclRecursive, 65, false)] -- A

/-- Lookup into the action table (the keys are pairwise distinct, so this
is exactly the source's match on the first byte). -/
def actionOf (c : ℕ) : Option (LineAction × ℕ × Bool) :=
  (actionTable.find? (fun e => e.1 == c)).map (fun e => e.2)

/-- The modifier loop of `parse_type` (parser.rs lines 601-621): flags are
`(plus, minus, exclamation, equals, tilde, caret)` in the source's
declaration order; a repeated modifier and an unknown byte are errors. -/
def modLoop : List ℕ → Bool → Bool → Bool → Bool → Bool → Bool →
    Except ParseError (Bool × Bool × Bool × Bool × Bool × Bool)
  | [], plus, minus, exclamation, equals, tilde, caret =>
    .ok (plus, minus, exclamation, equals, tilde, caret)
  | c :: rest, plus, minus, exclamation, equals, tilde, caret =>
    if c = 43 then
      if plus then .error (.DuplicateTypeModifier c)
      else modLoop rest true minus exclamation equals tilde caret
    else if c = 45 then
      if minus then .error (.DuplicateTypeModifier c)
      else modLoop rest plus true exclamation equals tilde caret
    else if c = 33 then
      if exclamation then .error (.DuplicateTypeModifier c)
      else modLoop rest plus minus true equals tilde caret
    else if c = 61 then
      if equals then .error (.DuplicateTypeModifier c)
      else modLoop rest plus minus exclamation true tilde caret
    else if c = 126 then
      if tilde then .error (.DuplicateTypeModifier c)
      else modLoop rest plus minus exclamation equals true caret
    else if c = 94 then
      if caret then .error (.DuplicateTypeModifier c)
      else modLoop rest plus minus exclamation equals tilde true
    else .error (.InvalidTypeModifier c)

/-- `parse_type` (parser.rs lines 563-651).  Returns the decoded `LineType`
and the base64 flag (the tilde modifier).  The `+` legality check runs on
the (possibly rewritten) action character before the caret check, exactly
as in the source. -/
def parse_type (input : List ℕ) : Except ParseError (LineType × Bool) :=
  match input with
  | [] => .error .EmptyParseType
  | c :: modifiers =>
    match actionOf c with
    | none => .error (.IllegalParseType c)
    | some (action, c2, plus0) =>
      match modLoop modifiers plus0 false false false false false with
      | .error e => .error e
      | .ok (plus, minus, exclamation, equals, tilde, caret) =>
        if plus then
          if c2 = 102 ∨ c2 = 119 ∨ c2 = 112 ∨ c2 = 76 ∨ c2 = 99 ∨ c2 = 98 ∨
              c2 = 67 ∨ c2 = 97 ∨ c2 = 65 then
            if caret then .error .IDKWhatAServiceCredentialIs
            else
              .ok (⟨action, true, exclamation, minus, equals⟩, tilde)
          else .error (.InvalidTypeCombination c2 43)
        else
          if caret then .error .IDKWhatAServiceCredentialIs
          else .ok (⟨action, false, exclamation, minus, equals⟩, tilde)

/-! ## Spans (parser.rs lines 351-453, config_file.rs lines 97-203) -/

/-- `Spanned<T>` (config_file.rs lines 97-102): a value with the half-open
character range it was decoded from.  The source also carries the file
identity (`&Path`); every value in one parse shares it, so it is elided. -/
structure Spanned (α : Type) where
  data : α
  lo : ℕ
  hi : ℕ
deriving DecidableEq, Repr

namespace Spanned

/-- `Spanned::map`. -/
def map (s : Spanned α) (f : α → β) : Spanned β := ⟨f s.data, s.lo, s.hi⟩

/-- `Spanned::try_map`. -/
def try_map (s : Spanned α) (f : α → Except ε β) : Except ε (Spanned β) :=
  match f s.data with
  | .error e => .error e
  | .ok b => .ok ⟨b, s.lo, s.hi⟩

/-- `Spanned::unzip`. -/
def unzip (s : Spanned (α × β)) : Spanned α × Spanned β :=
  (⟨s.data.1, s.lo, s.hi⟩, ⟨s.data.2, s.lo, s.hi⟩)

/-- `Spanned::<Option<T>>::try_then`:
`self.data.map(closure).transpose()?.flatten()`. -/
def try_then (s : Spanned (Option α)) (f : α → Except ε (Option β)) :
    Except ε (Spanned (Option β)) :=
  match s.data with
  | none => .ok ⟨none, s.lo, s.hi⟩
  | some a =>
    match f a with
    | .error e => .error e
    | .ok ob => .ok ⟨ob, s.lo, s.hi⟩

/-- `Spanned::<Option<T>>::opt_map`. -/
def opt_map (s : Spanned (Option α)) (f : α → β) : Spanned (Option β) :=
  ⟨s.data.map f, s.lo, s.hi⟩

/-- `Spanned::<Option<T>>::try_opt_map`:
`self.data.map(closure).transpose()?`. -/
def try_opt_map (s : Spanned (Option α)) (f : α → Except ε β) :
    Except ε (Spanned (Option β)) :=
  match s.data with
  | none => .ok ⟨none, s.lo, s.hi⟩
  | some a =>
    match f a with
    | .error e => .error e
    | .ok b => .ok ⟨some b, s.lo, s.hi⟩

end Spanned

/-- `FileSpan` (parser.rs lines 351-356), file identity elided; `lo`/`hi`
are the `char_range` bounds, with `hi = lo + bytes.length` throughout. -/
structure FileSpan where
  bytes : List ℕ
  lo : ℕ
  hi : ℕ
deriving DecidableEq, Repr

/-- `FileSpan::from_slice`. -/
def FileSpan.from_slice (bytes : List ℕ) : FileSpan := ⟨bytes, 0, bytes.length⟩

/-- Hexadecimal-digit test via `char::to_digit(16)`. -/
def isHexDigitByte (b : ℕ) : Bool := (digitVal 16 b).isSome

def hexVal (b : ℕ) : ℕ := (digitVal 16 b).getD 0

/-- The `\xHH` decoder of `take_field` (parser.rs lines 493-507):
`str::from_utf8` on the two bytes, then `u8::from_str_radix(s, 16)`,
asserting that any parse failure has kind `InvalidDigit`.  Two hex digits
parse to their value (at most 0xFF, so a `u8` cannot overflow), and —
because `from_str_radix` strips a leading plus sign even for unsigned
types — a plus sign followed by one hex digit parses to that digit's
value.  A minus sign is never stripped for a `u8` (the sign arm of the
core implementation is gated on signedness), so it fails as an invalid
digit like every other non-digit byte: the assertion always holds and all
failures (invalid UTF-8 or an invalid digit) are `InvalidHexEscape`. -/
def hexEscape (h1 h2 : ℕ) : Except FieldParseError ℕ :=
  if isHexDigitByte h1 ∧ isHexDigitByte h2 then .ok (hexVal h1 * 16 + hexVal h2)
  else if h1 = 43 ∧ isHexDigitByte h2 then .ok (hexVal h2)
  else .error .InvalidHexEscape

/-- The `\xHH` arm of the escape handler (parser.rs lines 493-507): the
two bytes after `\x` must be present (else `UnfinishedHexEscape`) and are
decoded by `hexEscape`; on success the escape consumed four bytes in
total. -/
def hex_escape_step : List ℕ → Except FieldParseError (ℕ × List ℕ × ℕ)
  | h1 :: h2 :: rest3 => (hexEscape h1 h2).map (fun b => (b, rest3, 4))
  | _ => .error .UnfinishedHexEscape

/-- The backslash-escape handler of `take_field` (parser.rs lines
485-514), on the bytes following the backslash: returns the decoded byte,
the remaining bytes, and the total byte count of the escape (backslash
included), or the escape's error.  Factored out of the scan loop so each
decoder is a plain non-recursive function. -/
def escape_step : List ℕ → Except FieldParseError (ℕ × List ℕ × ℕ)
  | [] => .error .TrailingBackslash
  | x :: rest2 =>
    if x = 120 then hex_escape_step rest2
    else if 48 ≤ x ∧ x ≤ 55 then .error .UnsupportedOctalEscape
    else if x = 110 then .ok (10, rest2, 2)
    else if x = 114 then .ok (13, rest2, 2)
    else if x = 116 then .ok (9, rest2, 2)
    else if x = 39 ∨ x = 34 ∨ x = 92 then .ok (x, rest2, 2)
    else .error (.UnrecognizedEscape x)

/-- The scanning loop of `take_field` (parser.rs lines 470-521), threading
the bytes still ahead of the cursor, the number of bytes consumed so far,
and the decoded field bytes.  Arms appear in the source's match order:
matching closing quote (followed only by whitespace or end of line),
whitespace/end ending an unquoted field, end of line inside quotes, a
quote inside an unquoted field, a backslash escape, or a plain byte.
`fuel` only bounds the iteration count so the recursion is structural:
every iteration consumes at least one byte, so `fuel` equal to the number
of remaining bytes always suffices (see `take_field_go_fuel_irrelevant`)
and the zero-fuel arm is unreachable from `take_field`. -/
def take_field_go (quotation : Option ℕ) :
    ℕ → List ℕ → ℕ → List ℕ → Except FieldParseError (List ℕ × ℕ)
  | _, [], consumed, field =>
    if quotation = none then .ok (field, consumed) else .error .UnfinishedQuote
  | 0, _ :: _, _, _ => .error .UnfinishedQuote -- unreachable: fuel covers the bytes
  | fuel + 1, ch :: rest, consumed, field =>
    if (ch = 39 ∨ ch = 34) ∧ some ch = quotation then
      if rest.head? = some 32 ∨ rest.head? = some 9 ∨ rest.head? = none then
        .ok (field, consumed + 1)
      else .error .JunkAfterQuotes
    else if (ch = 32 ∨ ch = 9) ∧ quotation = none then .ok (field, consumed)
    else if (ch = 39 ∨ ch = 34) ∧ quotation = none then
      .error .QuoteInUnquotedField
    else if ch = 92 then
      match escape_step rest with
      | .error e => .error e
      | .ok (b, rest2, delta) =>
        take_field_go quotation fuel rest2 (consumed + delta) (field ++ [b])
    else take_field_go quotation fuel rest (consumed + 1) (field ++ [ch])

/-- Wrap the scan result of `take_field_go` back into the caller's span:
on success the `Spanned` field covers the consumed bytes and the remainder
span starts after them (`SpanCursor::split_off_beginning`). -/
def take_field_wrap (input : FileSpan) :
    Except FieldParseError (List ℕ × ℕ) →
    Except FieldParseError (Spanned (Option (List ℕ)) × FileSpan)
  | .error e => .error e
  | .ok (field, consumed) =>
    .ok (⟨some field, input.lo, input.lo + consumed⟩,
      ⟨input.bytes.drop consumed, input.lo + consumed, input.hi⟩)

/-- `take_field` (parser.rs lines 455-527).  On an already-empty span the
result is `none` with the span's own (zero-width) range and nothing
consumed; otherwise the optional opening quote selects the mode. -/
def take_field (input : FileSpan) :
    Except FieldParseError (Spanned (Option (List ℕ)) × FileSpan) :=
  match input.bytes with
  | [] => .ok (⟨none, input.lo, input.hi⟩, input)
  | b :: rest =>
    if b = 39 ∨ b = 34 then
      take_field_wrap input (take_field_go (some b) rest.length rest 1 [])
    else
      take_field_wrap input
        (take_field_go none (b :: rest).length (b :: rest) 0 [])

/-- `take_inline_whitespace` (parser.rs lines 447-453). -/
def take_inline_whitespace (input : FileSpan) : FileSpan :=
  ⟨input.bytes.drop (input.bytes.takeWhile (fun b => decide (b = 32 ∨ b = 9))).length,
    input.lo + (input.bytes.takeWhile (fun b => decide (b = 32 ∨ b = 9))).length,
    input.hi⟩

/-! ## Base64 and the argument field (parser.rs lines 338-349) -/

/-- Standard-alphabet symbol values of the base64 crate. -/
def b64val (b : ℕ) : Option ℕ :=
  if 65 ≤ b ∧ b ≤ 90 then some (b - 65)
  else if 97 ≤ b ∧ b ≤ 122 then some (b - 71)
  else if 48 ≤ b ∧ b ≤ 57 then some (b + 4)
  else if b = 43 then some 62
  else if b = 47 then some 63
  else none

/-- Decode a final chunk of two symbols (one output byte) requiring the
trailing bits to be zero, as the crate's default config does. -/
def b64Final2 (c1 c2 : ℕ) : Except DecodeError (List ℕ) :=
  match b64val c1, b64val c2 with
  | some v1, some v2 =>
    if v2 % 16 = 0 then .ok [v1 * 4 + v2 / 16] else .error (.InvalidLastSymbol c2)
  | none, _ => .error (.InvalidByte c1)
  | _, none => .error (.InvalidByte c2)

/-- Decode a final chunk of three symbols (two output bytes). -/
def b64Final3 (c1 c2 c3 : ℕ) : Except DecodeError (List ℕ) :=
  match b64val c1, b64val c2, b64val c3 with
  | some v1, some v2, some v3 =>
    if v3 % 4 = 0 then .ok [v1 * 4 + v2 / 16, v2 % 16 * 16 + v3 / 4]
    else .error (.InvalidLastSymbol c3)
  | none, _, _ => .error (.InvalidByte c1)
  | _, none, _ => .error (.InvalidByte c2)
  | _, _, none => .error (.InvalidByte c3)

/-- Decode a full chunk of four symbols (three output bytes). -/
def b64Full (c1 c2 c3 c4 : ℕ) : Except DecodeError (List ℕ) :=
  match b64val c1, b64val c2, b64val c3, b64val c4 with
  | some v1, some v2, some v3, some v4 =>
    .ok [v1 * 4 + v2 / 16, v2 % 16 * 16 + v3 / 4, v3 % 4 * 64 + v4]
  | none, _, _, _ => .error (.InvalidByte c1)
  | _, none, _, _ => .error (.InvalidByte c2)
  | _, _, none, _ => .error (.InvalidByte c3)
  | _, _, _, none => .error (.InvalidByte c4)

def base64Chunks : List ℕ → Except DecodeError (List ℕ)
  | [] => .ok []
  | c1 :: c2 :: c3 :: c4 :: rest =>
    if rest = [] then
      if c4 = 61 then
        if c3 = 61 then b64Final2 c1 c2 else b64Final3 c1 c2 c3
      else b64Full c1 c2 c3 c4
    else
      match b64Full c1 c2 c3 c4 with
      | .error e => .error e
      | .ok bytes =>
        match base64Chunks rest with
        | .error e => .error e
        | .ok more => .ok (bytes ++ more)
  | _ => .error .InvalidPadding

/-- Model of `base64::prelude::BASE64_STANDARD.decode`: canonical padding
required (length a multiple of four, padding only at the very end),
non-zero trailing bits rejected.  A length of one symbol beyond a
multiple of four can never occur in valid base64 and is `InvalidLength`;
lengths two or three beyond are missing their required padding
(`InvalidPadding`).  Error payload offsets are elided. -/
def base64Decode (input : List ℕ) : Except DecodeError (List ℕ) :=
  if input.length % 4 = 0 then base64Chunks input
  else if input.length % 4 = 1 then .error .InvalidLength
  else .error .InvalidPadding

/-- `parse_argument` (parser.rs lines 338-349): empty remainder means no
argument; otherwise the bytes are taken literally, or base64-decoded when
the type field's tilde modifier was set. -/
def parse_argument (input : List ℕ) (base64_decode : Bool) :
    Except ParseError (Option (List ℕ)) :=
  if input ≠ [] then
    if base64_decode then
      match base64Decode input with
      | .error e => .error (.Base64Decode e)
      | .ok decoded => .ok (some decoded)
    else .ok (some input)
  else .ok none

/-! ## The line assembler (parser.rs lines 221-229 and 297-336) -/

/-- `optional` (parser.rs lines 227-229): the literal one-byte field `-`
(byte 45) means "not specified". -/
def optional (f : List ℕ → α) (input : List ℕ) : Option α :=
  if input = [45] then none else some (f input)

/-- `try_optional` (parser.rs lines 221-225):
`optional(f)(input).transpose()`. -/
def try_optional (f : List ℕ → Except ε α) (input : List ℕ) :
    Except ε (Option α) :=
  match optional f input with
  | none => .ok none
  | some (.error e) => .error e
  | some (.ok a) => .ok (some a)

/-- `Line` (config_file.rs lines 219-228).  The argument's `OsString` is
kept as its bytes. -/
structure Line where
  line_type : Spanned LineType
  path : Spanned SpecifierString
  mode : Spanned (Option Mode)
  owner : Spanned (Option FileOwner)
  group : Spanned (Option FileOwner)
  age : Spanned (Option CleanupAge)
  argument : Spanned (Option (List ℕ))
deriving DecidableEq, Repr

/-- The age pipeline of `parse_line` (parser.rs lines 319-322):
`take_field(..)?.as_opt_deref().try_opt_map(try_optional(parse_cleanup_age))?
.opt_map(|age| age.unwrap_or(CleanupAge::EMPTY))`.  An absent field stays
`none`; a present field of `-` becomes `CleanupAge::EMPTY`. -/
def parse_age_field (fld : Spanned (Option (List ℕ))) :
    Except CleanupParseError (Spanned (Option CleanupAge)) :=
  match fld.try_opt_map (try_optional parse_cleanup_age) with
  | .error e => .error e
  | .ok sp => .ok (sp.opt_map (fun age => age.getD CleanupAge.EMPTY))

/-- `parse_line` (parser.rs lines 297-336), sequencing the field decoders
with inline-whitespace skips exactly as the source does. -/
def parse_line (input : FileSpan) : Except ParseError Line :=
  if input.bytes.head? = some 32 ∨ input.bytes.head? = some 9 then
    .error .LeadingWhitespace
  else
    match take_field input with
    | .error e => .error (.Field e)
    | .ok (fld0, input1) =>
      match (fld0.map (fun o => o.getD [])).try_map parse_type with
      | .error e => .error e
      | .ok tySp =>
        let (line_type, base64_decode) := tySp.unzip
        let input1w := take_inline_whitespace input1
        match take_field input1w with
        | .error e => .error (.Field e)
        | .ok (fld1, input2) =>
          match (fld1.map (fun o => o.getD [])).try_map parse_path with
          | .error e => .error e
          | .ok path =>
            let input2w := take_inline_whitespace input2
            match take_field input2w with
            | .error e => .error (.Field e)
            | .ok (fld2, input3) =>
              match fld2.try_then (try_optional parse_mode) with
              | .error e => .error e
              | .ok mode =>
                let input3w := take_inline_whitespace input3
                match take_field input3w with
                | .error e => .error (.Field e)
                | .ok (fld3, input4) =>
                  match fld3.try_then (try_optional parse_user) with
                  | .error e => .error e
                  | .ok owner =>
                    let input4w := take_inline_whitespace input4
                    match take_field input4w with
                    | .error e => .error (.Field e)
                    | .ok (fld4, input5) =>
                      match fld4.try_then (try_optional parse_user) with
                      | .error e => .error e
                      | .ok group =>
                        let input5w := take_inline_whitespace input5
                        match take_field input5w with
                        | .error e => .error (.Field e)
                        | .ok (fld5, input6) =>
                          match parse_age_field fld5 with
                          | .error e => .error (.InvalidCleanupAge e)
                          | .ok age =>
                            let input6w := take_inline_whitespace input6
                            match (Spanned.mk input6w.bytes input6w.lo
                                input6w.hi).try_map
                                (fun bs => parse_argument bs base64_decode.data) with
                            | .error e => .error e
                            | .ok argument =>
                              .ok ⟨line_type, path, mode, owner, group, age, argument⟩

/-- Projection used to state claims about the decoded age at the public
interface. -/
def lineAge : Except ParseError Line → Option (Option CleanupAge)
  | .ok l => some l.age.data
  | .error _ => none

/-- Projection used to state claims about the decoded argument at the
public interface. -/
def lineArgument : Except ParseError Line → Option (Option (List ℕ))
  | .ok l => some l.argument.data
  | .error _ => none

/-! ## Helper lemmas -/

/-- A successful `parse_duration_part` consumes at least one byte: the
digit string must be non-empty for the `u64` parse to succeed, and the
unit keyword only adds to the consumption. -/
theorem parse_duration_part_progress {input : List ℕ} {d : Duration}
    {rest : List ℕ} (h : parse_duration_part input = .ok (d, rest)) :
    rest.length < input.length := by
  unfold parse_duration_part at h
  split at h
  · exact absurd h (by simp)
  · next count hu =>
    split at h
    · exact absurd h (by simp)
    · next unit hk =>
      split_ifs at h with h1 h2
      · simp only [Except.ok.injEq, Prod.mk.injEq] at h
        obtain ⟨-, hrest⟩ := h
        subst hrest
        have hne : input.takeWhile isAsciiDigit ≠ [] := by
          intro habs
          rw [habs] at hu
          simp [parseU64] at hu
        have hlen : (input.takeWhile isAsciiDigit).length +
            (input.dropWhile isAsciiDigit).length = input.length := by
          rw [← List.length_append, List.takeWhile_append_dropWhile]
        have hsub := (List.dropWhile_sublist
          (l := input.dropWhile isAsciiDigit) isKeyByte).length_le
        have hpos : 0 < (input.takeWhile isAsciiDigit).length :=
          List.length_pos.mpr hne
        omega

/-- A successful escape consumes at least one byte beyond the backslash:
the remaining bytes are strictly fewer than the bytes after the
backslash. -/
theorem escape_step_progress {rest rest2 : List ℕ} {b delta : ℕ}
    (h : escape_step rest = .ok (b, rest2, delta)) :
    rest2.length < rest.length := by
  cases rest with
  | nil => exact absurd h (by simp [escape_step])
  | cons x rest1 =>
    simp only [escape_step] at h
    split_ifs at h with hx hoct h110 h114 h116 hsimple
    · -- hex escape: two further bytes are consumed
      cases rest1 with
      | nil => exact absurd h (by simp [hex_escape_step])
      | cons c r1 =>
        cases r1 with
        | nil => exact absurd h (by simp [hex_escape_step])
        | cons d r2 =>
          simp only [hex_escape_step] at h
          cases hh : hexEscape c d with
          | error e => rw [hh] at h; exact absurd h (by simp [Except.map])
          | ok v =>
            rw [hh] at h
            simp only [Except.map, Except.ok.injEq, Prod.mk.injEq] at h
            obtain ⟨-, hr, -⟩ := h
            rw [← hr]
            simp only [List.length_cons]
            omega
    all_goals
      simp only [Except.ok.injEq, Prod.mk.injEq] at h
    all_goals
      obtain ⟨-, hr, -⟩ := h
    all_goals
      rw [← hr]
    all_goals
      simp only [List.length_cons]
    all_goals
      omega

/-- The scan loop of `take_field` does not depend on the fuel once the
fuel covers the remaining bytes (as `take_field` arranges): every
iteration consumes at least one byte. -/
theorem take_field_go_fuel_irrelevant (quotation : Option ℕ) :
    ∀ (fuel1 fuel2 : ℕ) (bytes : List ℕ) (consumed : ℕ) (field : List ℕ),
      bytes.length ≤ fuel1 → bytes.length ≤ fuel2 →
      take_field_go quotation fuel1 bytes consumed field =
        take_field_go quotation fuel2 bytes consumed field := by
  intro fuel1
  induction fuel1 with
  | zero =>
    intro fuel2 bytes consumed field h1 h2
    cases bytes with
    | nil => cases fuel2 <;> rfl
    | cons ch rest => simp at h1
  | succ f ih =>
    intro fuel2 bytes consumed field h1 h2
    cases bytes with
    | nil => cases fuel2 <;> rfl
    | cons ch rest =>
      cases fuel2 with
      | zero => simp at h2
      | succ f2 =>
        simp only [List.length_cons] at h1 h2
        simp only [take_field_go]
        split_ifs with hq1 hq2 hq3 hq4 hq5
        · rfl
        · rfl
        · rfl
        · rfl
        · cases hes : escape_step rest with
          | error e => simp only [hes]
          | ok tr =>
            obtain ⟨b, rest2, delta⟩ := tr
            simp only [hes]
            have hprog := escape_step_progress hes
            exact ih f2 rest2 (consumed + delta) (field ++ [b])
              (by omega) (by omega)
        · exact ih f2 rest (consumed + 1) (field ++ [ch]) (by omega) (by omega)

/-- `Duration::checked_add` never wraps: a successful checked addition is
the mathematical sum. -/
theorem durCheckedAdd_exact {a b c : Duration}
    (h : durCheckedAdd a b = some c) :
    durNanos c = durNanos a + durNanos b := by
  unfold durCheckedAdd at h
  split_ifs at h with h1 h2 h3 <;>
    (injection h with h4; subst h4; unfold durNanos; simp only; omega)

/-- A successful `parse_duration_part` is exact: the returned duration's
nanosecond total is the magnitude times the unit, with no truncation. -/
theorem parse_duration_part_exact {input : List ℕ} {d : Duration}
    {rest : List ℕ} (h : parse_duration_part input = .ok (d, rest)) :
    duration_part_spec input = some (durNanos d, rest) := by
  unfold parse_duration_part at h
  unfold duration_part_spec
  split at h
  · exact absurd h (by simp)
  · next count hu =>
    split at h
    · exact absurd h (by simp)
    · next unit hk =>
      split_ifs at h with h1 h2
      · simp only [Except.ok.injEq, Prod.mk.injEq] at h
        obtain ⟨hd, hrest⟩ := h
        subst hrest
        simp only [Option.some.injEq, Prod.mk.injEq, and_true]
        rw [← hd]
        unfold durNanos
        simp only
        have e1 : count * (unit.secs * 10 ^ 9 + unit.nanos) =
            unit.secs * count * 10 ^ 9 + unit.nanos * count := by ring
        rw [e1]
        generalize unit.secs * count = P
        generalize unit.nanos * count = T
        omega

/-- The summation loop of `parse_duration` is exact whenever it succeeds,
provided the fuel covers the input (as `parse_duration` arranges). -/
theorem parse_duration_go_exact :
    ∀ (fuel : ℕ) (input : List ℕ) (acc : Duration) (orig : List ℕ)
      (d : Duration), input.length ≤ fuel →
      parse_duration_go orig fuel acc input = .ok d →
      duration_spec_go fuel (durNanos acc) input = some (durNanos d) := by
  intro fuel
  induction fuel with
  | zero =>
    intro input acc orig d hle h
    cases input with
    | nil =>
      simp only [parse_duration_go, Except.ok.injEq] at h
      subst h
      rfl
    | cons b rest => simp at hle
  | succ fuel ih =>
    intro input acc orig d hle h
    cases input with
    | nil =>
      simp only [parse_duration_go, Except.ok.injEq] at h
      subst h
      rfl
    | cons b rest =>
      simp only [parse_duration_go] at h
      split at h
      · exact absurd h (by simp)
      · next d1 rest2 hp =>
        split at h
        · exact absurd h (by simp)
        · next acc2 hadd =>
          have hprog := parse_duration_part_progress hp
          have hle2 : rest2.length ≤ fuel := by
            simp only [List.length_cons] at hprog hle
            omega
          have hspec := ih rest2 acc2 orig d hle2 h
          simp only [duration_spec_go, parse_duration_part_exact hp]
          rw [durCheckedAdd_exact hadd] at hspec
          exact hspec

/-! ## Claim C2 -/

/-- Claim C2: `parse_duration` is order-independent under concatenation of
parts — on the bytes of "1s1m" and "1m1s" it returns exactly 61 seconds in
both orders, and on the bytes of "6days23hr59m59sec999ms999µs1000ns" it
returns exactly one week (7 days). -/
theorem claim_C2_duration_order :
    parse_duration [49, 115, 49, 109] = .ok ⟨61, 0⟩ ∧
    parse_duration [49, 109, 49, 115] = .ok ⟨61, 0⟩ ∧
    parse_duration [54, 100, 97, 121, 115, 50, 51, 104, 114, 53, 57, 109, 53,
      57, 115, 101, 99, 57, 57, 57, 109, 115, 57, 57, 57, 194, 181, 115, 49,
      48, 48, 48, 110, 115] = .ok WEEK ∧
    WEEK = ⟨7 * 24 * 60 * 60, 0⟩ := by
  refine ⟨by decide, by decide, by decide, by decide⟩

/-! ## Claim C1 -/

/-- Claim C1, counterexample: the byte string `/\0` has a non-empty literal
prefix (it contains no percent byte, so the prefix is the whole string)
starting with a slash, yet `parse_path` rejects it with `NullInPath` instead
of accepting it: the NUL check precedes the absoluteness rule. -/
theorem claim_C1_counterexample :
    List.takeWhile (fun b => b != 37) [47, 0] = [47, 0] ∧
    ([47, 0] : List ℕ).head? = some 47 ∧
    parse_path [47, 0] = .error .NullInPath := by
  refine ⟨by decide, by decide, by decide⟩

/-- Claim C1, amended: for every path field byte string whose specifiers
are all well formed (so `parse_specifiers` succeeds) and which contains no
NUL byte in its literal parts, `parse_path` accepts it when the literal
prefix is non-empty and starts with a slash; rejects `NonabsolutePath` when
the prefix is non-empty otherwise; rejects `EmptyPath` when prefix and
sections are both empty; and with an empty prefix and a leading specifier
accepts exactly the whitelist CacheDir, UserHome, LogDir, StateDir,
RuntimeDir, TempDir, PersistentTempDir. -/
theorem claim_C1_amended (input : List ℕ) (s : SpecifierString)
    (hspec : parse_specifiers input = .ok s)
    (hnul : ¬(s.leading.contains 0 ∨ s.sections.any (fun p => p.2.contains 0))) :
    (s.leading.head? = some 47 → parse_path input = .ok s) ∧
    (s.leading ≠ [] → s.leading.head? ≠ some 47 →
      parse_path input = .error .NonabsolutePath) ∧
    (s.leading = [] → s.sections = [] → parse_path input = .error .EmptyPath) ∧
    (∀ (sp : Specifier) (seg : List ℕ) (rest : List (Specifier × List ℕ)),
      s.leading = [] → s.sections = (sp, seg) :: rest →
      ((sp = .CacheDir ∨ sp = .UserHome ∨ sp = .LogDir ∨ sp = .StateDir ∨
          sp = .RuntimeDir ∨ sp = .TempDir ∨ sp = .PersistentTempDir) →
        parse_path input = .ok s) ∧
      (¬(sp = .CacheDir ∨ sp = .UserHome ∨ sp = .LogDir ∨ sp = .StateDir ∨
          sp = .RuntimeDir ∨ sp = .TempDir ∨ sp = .PersistentTempDir) →
        parse_path input = .error .NonabsolutePath)) := by
  have hpp : parse_path input = parse_path_checks s := by
    unfold parse_path
    rw [hspec]
  refine ⟨?_, ?_, ?_, ?_⟩
  · intro h47
    rw [hpp]
    unfold parse_path_checks
    rw [if_neg hnul, if_pos h47]
  · intro hne h47
    rw [hpp]
    unfold parse_path_checks
    rw [if_neg hnul, if_neg h47, if_pos hne]
  · intro hlead hsec
    rw [hpp]
    unfold parse_path_checks
    rw [if_neg hnul, hsec, hlead]
    simp
  · intro sp seg rest hlead hsec
    constructor
    · intro hin
      rw [hpp]
      unfold parse_path_checks
      rw [if_neg hnul, hsec, hlead]
      simp only [List.head?_nil, ne_eq, not_true_eq_false, if_pos hin]
      simp
    · intro hout
      rw [hpp]
      unfold parse_path_checks
      rw [if_neg hnul, hsec, hlead]
      simp only [List.head?_nil, ne_eq, not_true_eq_false, if_neg hout]
      simp

/-- Claim C1, witness: the amended theorem applied to the bare `%h` and
bare `%b` paths gives the claim's two highlighted instances. -/
theorem claim_C1_amended_witness :
    parse_path [37, 104] = .ok ⟨[], [(Specifier.UserHome, [])]⟩ ∧
    parse_path [37, 98] = .error .NonabsolutePath := by
  constructor
  · exact ((claim_C1_amended [37, 104] ⟨[], [(Specifier.UserHome, [])]⟩
      (by decide) (by decide)).2.2.2 Specifier.UserHome [] [] rfl rfl).1
      (Or.inr (Or.inl rfl))
  · exact ((claim_C1_amended [37, 98] ⟨[], [(Specifier.BootID, [])]⟩
      (by decide) (by decide)).2.2.2 Specifier.BootID [] [] rfl rfl).2
      (by decide)

/-! ## Claim C3 -/

/-- Claim C3, counterexample: in the bytes of "1s9999999999999month" the
second part overflows, and the `OverflowedDuration` error carries only the
input from the start of that part ("9999999999999month"), not the original
input bytes of the whole duration field. -/
theorem claim_C3_counterexample :
    parse_duration ([49, 115] ++ [57, 57, 57, 57, 57, 57, 57, 57, 57, 57, 57,
        57, 57, 109, 111, 110, 116, 104]) =
      .error (.OverflowedDuration [57, 57, 57, 57, 57, 57, 57, 57, 57, 57, 57,
        57, 57, 109, 111, 110, 116, 104]) ∧
    ([57, 57, 57, 57, 57, 57, 57, 57, 57, 57, 57, 57, 57, 109, 111, 110, 116,
        104] : List ℕ) ≠
      [49, 115] ++ [57, 57, 57, 57, 57, 57, 57, 57, 57, 57, 57, 57, 57, 109,
        111, 110, 116, 104] := by
  refine ⟨by decide, by decide⟩

/-- Claim C3, amended: whenever a part's magnitude times its unit or the
running sum of parts exceeds the representable duration range,
`parse_duration` fails with `OverflowedDuration` carrying the bytes from
the start of the overflowing part onward (which are the whole original
input when the first part or the running sum overflows — as for
"9999999999999month"), and it never returns a wrapped-around or saturated
value: every successful result equals the exact unbounded sum of
magnitude-times-unit over all parts. -/
theorem claim_C3_amended :
    (∀ (input : List ℕ) (d : Duration), parse_duration input = .ok d →
      duration_spec input = some (durNanos d)) ∧
    parse_duration [57, 57, 57, 57, 57, 57, 57, 57, 57, 57, 57, 57, 57, 109,
        111, 110, 116, 104] =
      .error (.OverflowedDuration [57, 57, 57, 57, 57, 57, 57, 57, 57, 57, 57,
        57, 57, 109, 111, 110, 116, 104]) := by
  constructor
  · intro input d h
    unfold parse_duration at h
    unfold duration_spec
    split at h
    · exact absurd h (by simp)
    · next acc rest hp =>
      rw [parse_duration_part_exact hp]
      exact parse_duration_go_exact rest.length rest acc input d le_rfl h
  · decide

/-- Claim C3, witness: the exactness half of the amended theorem applied to
the bytes of "1s". -/
theorem claim_C3_amended_witness :
    duration_spec [49, 115] = some (durNanos ⟨1, 0⟩) :=
  claim_C3_amended.1 [49, 115] ⟨1, 0⟩ (by decide)

/-! ## Claim C4 -/

/-- Claim C4, counterexample: on a line whose argument field is exactly the
literal `-`, `parse_line` returns the one-byte argument `-` (`Some`), not
`None` — `parse_argument` never applies the `-` sentinel. -/
theorem claim_C4_counterexample :
    lineArgument (parse_line (FileSpan.from_slice
        [102, 32, 47, 97, 32, 45, 32, 45, 32, 45, 32, 45, 32, 45])) =
      some (some [45]) ∧
    some (some ([45] : List ℕ)) ≠ some (none : Option (List ℕ)) := by
  refine ⟨by decide, by decide⟩

/-- Claim C4, amended: the `-` sentinel is not special for the argument
field, unlike mode, owner, group and age: a remaining argument of exactly
`-` decodes to the literal one-byte argument, and the argument is `None`
exactly when the remaining bytes are empty. -/
theorem claim_C4_amended :
    lineArgument (parse_line (FileSpan.from_slice
        [102, 32, 47, 97, 32, 45, 32, 45, 32, 45, 32, 45, 32, 45])) =
      some (some [45]) ∧
    (∀ b64 : Bool, parse_argument [] b64 = .ok none) ∧
    (∀ bs : List ℕ, bs ≠ [] → parse_argument bs false = .ok (some bs)) := by
  refine ⟨by decide, by decide, ?_⟩
  intro bs hne
  unfold parse_argument
  rw [if_pos hne, if_neg (by simp)]

/-- Claim C4, witness: the amended theorem's literal-argument clause
applied to the one-byte field `-`. -/
theorem claim_C4_amended_witness :
    parse_argument [45] false = .ok (some [45]) :=
  claim_C4_amended.2.2 [45] (by decide)

/-! ## Claim C7 -/

/-- Claim C7, counterexample: the plus byte is not a hex digit, yet the
field `\x+5` is accepted with the decoded byte 5 instead of failing with
`InvalidHexEscape`: `u8::from_str_radix` strips a leading plus sign even
for unsigned types, so the two bytes after `\x` parse although they are
not both hex digits. -/
theorem claim_C7_counterexample :
    isHexDigitByte 43 = false ∧
    take_field (FileSpan.from_slice [92, 120, 43, 53]) =
      .ok (⟨some [5], 0, 4⟩, ⟨[], 4, 4⟩) := by
  refine ⟨by decide, by decide⟩

/-- Claim C7, amended: `take_field` maps each malformed escape or quoting
situation to its own distinct named error: an opening quote never closed
gives `UnfinishedQuote`; a backslash at end of input gives
`TrailingBackslash`; `\x` with fewer than two bytes remaining gives
`UnfinishedHexEscape`; `\x` followed by two bytes that do not parse as a
base-16 `u8` gives `InvalidHexEscape` — where a plus sign followed by a
hex digit does parse (to that digit's value), and a minus sign never does
(`from_str_radix` strips a minus only for signed types), so in particular
`\x-1` and `\x-0` are `InvalidHexEscape`; a backslash followed by a digit
0-7 gives `UnsupportedOctalEscape` (never interpreted as octal); any other
escaped byte gives `UnrecognizedEscape` carrying that byte; and the six
simple escapes decode to the corresponding single byte. -/
theorem claim_C7_amended :
    (∀ (h1 h2 : ℕ) (rest : List ℕ),
      ¬((isHexDigitByte h1 ∧ isHexDigitByte h2) ∨
        (h1 = 43 ∧ isHexDigitByte h2)) →
      take_field (FileSpan.from_slice (92 :: 120 :: h1 :: h2 :: rest)) =
        .error .InvalidHexEscape) ∧
    (∀ (x : ℕ) (rest : List ℕ), 48 ≤ x → x ≤ 55 →
      take_field (FileSpan.from_slice (92 :: x :: rest)) =
        .error .UnsupportedOctalEscape) ∧
    (∀ (x : ℕ) (rest : List ℕ), x ≠ 120 → ¬(48 ≤ x ∧ x ≤ 55) → x ≠ 110 →
      x ≠ 114 → x ≠ 116 → x ≠ 39 → x ≠ 34 → x ≠ 92 →
      take_field (FileSpan.from_slice (92 :: x :: rest)) =
        .error (.UnrecognizedEscape x)) ∧
    take_field (FileSpan.from_slice [92, 120, 43, 53]) =
      .ok (⟨some [5], 0, 4⟩, ⟨[], 4, 4⟩) ∧
    take_field (FileSpan.from_slice [92, 120, 45, 49]) =
      .error .InvalidHexEscape ∧
    take_field (FileSpan.from_slice [92, 120, 45, 48]) =
      .error .InvalidHexEscape ∧
    take_field (FileSpan.from_slice [34]) = .error .UnfinishedQuote ∧
    take_field (FileSpan.from_slice [92]) = .error .TrailingBackslash ∧
    take_field (FileSpan.from_slice [92, 120]) = .error .UnfinishedHexEscape ∧
    take_field (FileSpan.from_slice [92, 120, 103]) =
      .error .UnfinishedHexEscape ∧
    take_field (FileSpan.from_slice
        [92, 110, 92, 114, 92, 116, 92, 92, 92, 39, 92, 34]) =
      .ok (⟨some [10, 13, 9, 92, 39, 34], 0, 12⟩, ⟨[], 12, 12⟩) := by
  refine ⟨?_, ?_, ?_, by decide, by decide, by decide, by decide, by decide,
    by decide, by decide, by decide⟩
  · intro h1 h2 rest hno
    have hhex : hexEscape h1 h2 = .error .InvalidHexEscape := by
      unfold hexEscape
      rw [if_neg (fun hc => hno (Or.inl hc)), if_neg (fun hc => hno (Or.inr hc))]
    simp [take_field, FileSpan.from_slice, take_field_go, escape_step,
      hex_escape_step, Except.map, hhex, take_field_wrap]
  · intro x rest h48 h55
    have hx120 : x ≠ 120 := by omega
    simp [take_field, FileSpan.from_slice, take_field_go, escape_step,
      take_field_wrap, hx120, h48, h55]
  · intro x rest hx120 hoct h110 h114 h116 h39 h34 h92
    simp [take_field, FileSpan.from_slice, take_field_go, escape_step,
      take_field_wrap, hx120, hoct, h110, h114, h116, h39, h34, h92]

/-- Claim C7, witness: the hex-escape clause of the amended theorem applied
to the field `\xgg`. -/
theorem claim_C7_amended_witness :
    take_field (FileSpan.from_slice (92 :: 120 :: 103 :: 103 :: [])) =
      .error .InvalidHexEscape :=
  claim_C7_amended.1 103 103 [] (by decide)

/-! ## Claim C8 -/

/-- Claim C8: a line ending immediately after the path field — the bytes of
"R! /etc/group.lock" — parses with boot true from the `R!` type field, and
mode, owner, group, age and argument all `None`, each with the zero-width
span 18..18 at end of line; the universally-quantified conjuncts show the
mechanism: on an exhausted span `take_field` yields `none` with the span's
zero-width range and the whitespace skipper is the identity. -/
theorem claim_C8_omitted_fields :
    parse_line (FileSpan.from_slice [82, 33, 32, 47, 101, 116, 99, 47, 103,
        114, 111, 117, 112, 46, 108, 111, 99, 107]) =
      .ok ⟨⟨⟨.RemoveRecursive, false, true, false, false⟩, 0, 2⟩,
        ⟨⟨[47, 101, 116, 99, 47, 103, 114, 111, 117, 112, 46, 108, 111, 99,
          107], []⟩, 3, 18⟩,
        ⟨none, 18, 18⟩, ⟨none, 18, 18⟩, ⟨none, 18, 18⟩, ⟨none, 18, 18⟩,
        ⟨none, 18, 18⟩⟩ ∧
    (∀ lo : ℕ, take_field ⟨[], lo, lo⟩ = .ok (⟨none, lo, lo⟩, ⟨[], lo, lo⟩)) ∧
    (∀ lo : ℕ, take_inline_whitespace ⟨[], lo, lo⟩ = ⟨[], lo, lo⟩) := by
  refine ⟨by decide, fun lo => rfl, fun lo => rfl⟩

/-! ## Claim C9 -/

/-- Claim C9: the age field's `-` sentinel and its absence differ at the
public interface — an explicit `-` age yields `some CleanupAge.EMPTY`
(zero duration, all consider flags of `EMPTY` set, `consider_ctime_dir`
false), while an age column missing because the line ended early yields
`none`; shown on two concrete lines and on the age pipeline
`parse_age_field` itself for any span. -/
theorem claim_C9_age_sentinel_vs_absent :
    lineAge (parse_line (FileSpan.from_slice
        [102, 32, 47, 97, 32, 45, 32, 45, 32, 45, 32, 45])) =
      some (some CleanupAge.EMPTY) ∧
    lineAge (parse_line (FileSpan.from_slice
        [102, 32, 47, 97, 32, 45, 32, 45, 32, 45])) = some none ∧
    (∀ lo hi : ℕ, parse_age_field ⟨some [45], lo, hi⟩ =
      .ok ⟨some CleanupAge.EMPTY, lo, hi⟩) ∧
    (∀ lo hi : ℕ, parse_age_field ⟨none, lo, hi⟩ = .ok ⟨none, lo, hi⟩) ∧
    CleanupAge.EMPTY.age = ⟨0, 0⟩ ∧
    CleanupAge.EMPTY.second_level = false ∧
    CleanupAge.EMPTY.consider_atime = true ∧
    CleanupAge.EMPTY.consider_atime_dir = true ∧
    CleanupAge.EMPTY.consider_btime = true ∧
    CleanupAge.EMPTY.consider_btime_dir = true ∧
    CleanupAge.EMPTY.consider_ctime = true ∧
    CleanupAge.EMPTY.consider_ctime_dir = false ∧
    CleanupAge.EMPTY.consider_mtime = true ∧
    CleanupAge.EMPTY.consider_mtime_dir = true := by
  refine ⟨by decide, by decide, fun lo hi => rfl, fun lo hi => rfl,
    rfl, rfl, rfl, rfl, rfl, rfl, rfl, rfl, rfl, rfl⟩

/-! ## Claim C5 -/

/-- Enumeration of the action table: for every entry, if the (possibly
rewritten) character is one of the plus-legal letters then the action is in
the recreate whitelist, and the only entry with `plus` pre-set is F, whose
action is `CreateFile`. -/
theorem actionOf_plus_spec {c : ℕ} {a : LineAction} {c2 : ℕ} {p : Bool}
    (h : actionOf c = some (a, c2, p)) :
    ((c2 = 102 ∨ c2 = 119 ∨ c2 = 112 ∨ c2 = 76 ∨ c2 = 99 ∨ c2 = 98 ∨
        c2 = 67 ∨ c2 = 97 ∨ c2 = 65) →
      a ∈ [LineAction.CreateFile, .WriteFile, .CreateFifo, .CreateSymlink,
        .CreateCharDevice, .CreateBlockDevice, .Copy, .SetAcl,
        .SetAclRecursive]) ∧
    (p = true → a = .CreateFile) := by
  have hall : ∀ x ∈ actionTable,
      ((x.2.2.1 = 102 ∨ x.2.2.1 = 119 ∨ x.2.2.1 = 112 ∨ x.2.2.1 = 76 ∨
          x.2.2.1 = 99 ∨ x.2.2.1 = 98 ∨ x.2.2.1 = 67 ∨ x.2.2.1 = 97 ∨
          x.2.2.1 = 65) →
        x.2.1 ∈ [LineAction.CreateFile, .WriteFile, .CreateFifo,
          .CreateSymlink, .CreateCharDevice, .CreateBlockDevice, .Copy,
          .SetAcl, .SetAclRecursive]) ∧
      (x.2.2.2 = true → x.2.1 = .CreateFile) := by decide
  unfold actionOf at h
  cases hf : actionTable.find? (fun e => e.1 == c) with
  | none => rw [hf] at h; exact absurd h (by simp)
  | some e =>
    rw [hf] at h
    have hmem : e ∈ actionTable := List.mem_of_find?_eq_some hf
    obtain ⟨k, a2, c22, p2⟩ := e
    simp only [Option.map_some', Option.some.injEq, Prod.mk.injEq] at h
    obtain ⟨ha, hc2, hp⟩ := h
    subst ha
    subst hc2
    subst hp
    simpa using hall _ hmem

/-- Claim C5: on every input accepted by `parse_type`, `recreate` is true
only when the action is one of create-file, write-file, create-fifo,
create-symlink, create-char-device, create-block-device, copy, set-acl,
set-acl-recursive; and a `+` modifier combined with any action letter
outside that set fails with `InvalidTypeCombination(action_byte, 43)`. -/
theorem claim_C5_recreate_invariant :
    (∀ (input : List ℕ) (lt : LineType) (b64 : Bool),
      parse_type input = .ok (lt, b64) → lt.recreate = true →
      lt.action ∈ [LineAction.CreateFile, .WriteFile, .CreateFifo,
        .CreateSymlink, .CreateCharDevice, .CreateBlockDevice, .Copy,
        .SetAcl, .SetAclRecursive]) ∧
    (∀ (c : ℕ) (a : LineAction) (c2 : ℕ) (p : Bool),
      actionOf c = some (a, c2, p) →
      a ∉ [LineAction.CreateFile, .WriteFile, .CreateFifo, .CreateSymlink,
        .CreateCharDevice, .CreateBlockDevice, .Copy, .SetAcl,
        .SetAclRecursive] →
      parse_type [c, 43] = .error (.InvalidTypeCombination c2 43)) := by
  constructor
  · intro input lt b64 h hrec
    cases input with
    | nil => exact absurd h (by simp [parse_type])
    | cons c mods =>
      simp only [parse_type] at h
      split at h
      · exact absurd h (by simp)
      · next a c2 p hact =>
        split at h
        · exact absurd h (by simp)
        · next plus minus exclamation equals tilde caret hloop =>
          by_cases hplus : plus = true
          · by_cases hmem : c2 = 102 ∨ c2 = 119 ∨ c2 = 112 ∨ c2 = 76 ∨
              c2 = 99 ∨ c2 = 98 ∨ c2 = 67 ∨ c2 = 97 ∨ c2 = 65
            · by_cases hcaret : caret = true
              · rw [if_pos hplus, if_pos hmem, if_pos hcaret] at h
                exact absurd h (by simp)
              · rw [if_pos hplus, if_pos hmem, if_neg hcaret] at h
                simp only [Except.ok.injEq, Prod.mk.injEq] at h
                obtain ⟨hlt, -⟩ := h
                rw [← hlt]
                exact (actionOf_plus_spec hact).1 hmem
            · rw [if_pos hplus, if_neg hmem] at h
              exact absurd h (by simp)
          · by_cases hcaret : caret = true
            · rw [if_neg hplus, if_pos hcaret] at h
              exact absurd h (by simp)
            · rw [if_neg hplus, if_neg hcaret] at h
              simp only [Except.ok.injEq, Prod.mk.injEq] at h
              obtain ⟨hlt, -⟩ := h
              rw [← hlt] at hrec
              exact absurd hrec (by simp)
  · intro c a c2 p hact hnotin
    have hspec := actionOf_plus_spec hact
    have hp : p = false := by
      cases p
      · rfl
      · exfalso
        exact hnotin (by rw [hspec.2 rfl]; decide)
    have hmem : ¬(c2 = 102 ∨ c2 = 119 ∨ c2 = 112 ∨ c2 = 76 ∨ c2 = 99 ∨
        c2 = 98 ∨ c2 = 67 ∨ c2 = 97 ∨ c2 = 65) :=
      fun hm => hnotin (hspec.1 hm)
    subst hp
    simp [parse_type, hact, modLoop, hmem]

/-- Claim C5, witness: the invariant applied to `a+` (set-acl with recreate),
and the combination check applied to `Z+`. -/
theorem claim_C5_witness :
    LineAction.SetAcl ∈ [LineAction.CreateFile, .WriteFile, .CreateFifo,
      .CreateSymlink, .CreateCharDevice, .CreateBlockDevice, .Copy,
      .SetAcl, .SetAclRecursive] ∧
    parse_type [90, 43] = .error (.InvalidTypeCombination 90 43) :=
  ⟨claim_C5_recreate_invariant.1 [97, 43]
      ⟨.SetAcl, true, false, false, false⟩ false (by decide) rfl,
    claim_C5_recreate_invariant.2 90 .SetModeRecursive 90 false
      (by decide) (by decide)⟩

/-! ## Claim C6 -/

/-- On a list of ASCII octal digits, the positive-number loop of
`from_str_radix` computes the base-8 fold whenever the final value (and so
every intermediate value) is below the bound. -/
theorem posDigitsVal_octal :
    ∀ (digits : List ℕ) (acc : ℕ),
      (∀ b ∈ digits, 48 ≤ b ∧ b ≤ 55) →
      (acc + 1) * 8 ^ digits.length ≤ 2 ^ 32 →
      posDigitsVal 8 (2 ^ 32) digits acc =
        some (digits.foldl (fun a b => a * 8 + (b - 48)) acc) := by
  intro digits
  induction digits with
  | nil => intro acc hall hb; rfl
  | cons b rest ih =>
    intro acc hall hb
    have hbd := hall b (List.mem_cons_self b rest)
    have hdv : digitVal 8 b = some (b - 48) := by
      unfold digitVal
      rw [if_pos ⟨hbd.1, by omega, by omega⟩]
    have hstep : (acc * 8 + (b - 48) + 1) * 8 ^ rest.length ≤ 2 ^ 32 := by
      calc (acc * 8 + (b - 48) + 1) * 8 ^ rest.length
          ≤ ((acc + 1) * 8) * 8 ^ rest.length := by
            apply Nat.mul_le_mul_right
            omega
        _ = (acc + 1) * 8 ^ (rest.length + 1) := by ring
        _ ≤ 2 ^ 32 := by simpa using hb
    have hpow : (1:ℕ) ≤ 8 ^ rest.length := Nat.one_le_pow _ _ (by norm_num)
    have hlt : acc * 8 + (b - 48) < 2 ^ 32 := by
      have hle := le_trans
        (Nat.le_mul_of_pos_right (acc * 8 + (b - 48) + 1) (by omega)) hstep
      omega
    simp only [posDigitsVal, hdv, if_pos hlt, List.foldl_cons]
    exact ih (acc * 8 + (b - 48))
      (fun x hx => hall x (List.mem_cons_of_mem b hx)) hstep

/-- Claim C6: for an optional single colon or tilde behavior prefix
followed by 3 or 4 ASCII octal digits, `parse_mode` returns `Ok` with the
base-8 value of the digits (round-trip); and every input whose part after
the optional prefix has a length other than 3 to 4 is rejected with
`InvalidMode`. -/
theorem claim_C6_mode_roundtrip :
    (∀ (mbPre digits : List ℕ),
      (mbPre = [] ∨ mbPre = [58] ∨ mbPre = [126]) →
      (∀ b ∈ digits, 48 ≤ b ∧ b ≤ 55) →
      (digits.length = 3 ∨ digits.length = 4) →
      parse_mode (mbPre ++ digits) =
        .ok ⟨octVal digits,
          if mbPre = [58] then .KeepExisting
          else if mbPre = [126] then .Masked else .Default⟩) ∧
    (∀ input : List ℕ,
      ¬(3 ≤ (modeDigits input).length ∧ (modeDigits input).length ≤ 4) →
      parse_mode input = .error .InvalidMode) := by
  constructor
  · intro mbPre digits hpre hdig hlen
    have hnonempty : digits ≠ [] := by
      intro habs
      rw [habs] at hlen
      simp at hlen
    have hdlen : 3 ≤ digits.length ∧ digits.length ≤ 4 := by
      rcases hlen with h | h <;> omega
    have hradix : fromStrRadixNat 8 (2 ^ 32) digits = some (octVal digits) := by
      cases digits with
      | nil => exact absurd rfl hnonempty
      | cons b rest =>
        have hb := hdig b (List.mem_cons_self b rest)
        simp only [fromStrRadixNat]
        rw [if_neg (by omega)]
        exact posDigitsVal_octal (b :: rest) 0 hdig (by
          rcases hlen with h3 | h4
          · rw [h3]; norm_num
          · rw [h4]; norm_num)
    rcases hpre with h0 | h0 | h0 <;> subst h0
    · cases digits with
      | nil => exact absurd rfl hnonempty
      | cons b rest =>
        have hb := hdig b (List.mem_cons_self b rest)
        simp only [List.nil_append]
        unfold parse_mode
        rw [if_neg (by simp; omega), if_neg (by simp; omega)]
        unfold parse_mode_digits
        rw [if_pos hdlen, hradix]
        simp
    · simp only [List.singleton_append]
      unfold parse_mode
      rw [if_pos (by simp)]
      simp only [List.drop_succ_cons, List.drop_zero]
      unfold parse_mode_digits
      rw [if_pos hdlen, hradix]
      simp
    · simp only [List.singleton_append]
      unfold parse_mode
      rw [if_neg (by simp), if_pos (by simp)]
      simp only [List.drop_succ_cons, List.drop_zero]
      unfold parse_mode_digits
      rw [if_pos hdlen, hradix]
      simp
  · intro input hlen
    unfold parse_mode
    by_cases h1 : input.head? = some 58
    · rw [if_pos h1]
      unfold modeDigits at hlen
      rw [if_pos (Or.inl h1)] at hlen
      unfold parse_mode_digits
      rw [if_neg hlen]
    · rw [if_neg h1]
      by_cases h2 : input.head? = some 126
      · rw [if_pos h2]
        unfold modeDigits at hlen
        rw [if_pos (Or.inr h2)] at hlen
        unfold parse_mode_digits
        rw [if_neg hlen]
      · rw [if_neg h2]
        unfold modeDigits at hlen
        rw [if_neg (by tauto)] at hlen
        unfold parse_mode_digits
        rw [if_neg hlen]

/-- Claim C6, witness: the round-trip applied to `:777` (value 511, keep
existing) and the length check applied to the two-digit input `12`. -/
theorem claim_C6_witness :
    parse_mode [58, 55, 55, 55] = .ok ⟨511, .KeepExisting⟩ ∧
    parse_mode [49, 50] = .error .InvalidMode := by
  constructor
  · have h := claim_C6_mode_roundtrip.1 [58] [55, 55, 55]
      (Or.inr (Or.inl rfl)) (by decide) (Or.inl rfl)
    have h2 : parse_mode [58, 55, 55, 55] =
        .ok ⟨octVal [55, 55, 55], .KeepExisting⟩ := by simpa using h
    rw [h2]
    decide
  · exact claim_C6_mode_roundtrip.2 [49, 50] (by decide)

/-! ## Claim C10 -/

/-- The remainder span produced by a successful `take_field_wrap` never has
more bytes than the input span. -/
theorem take_field_wrap_bytes {input : FileSpan}
    {r : Except FieldParseError (List ℕ × ℕ)}
    {fld : Spanned (Option (List ℕ))} {rest : FileSpan}
    (h : take_field_wrap input r = .ok (fld, rest)) :
    rest.bytes.length ≤ input.bytes.length := by
  unfold take_field_wrap at h
  split at h
  · exact absurd h (by simp)
  · next field consumed =>
    simp only [Except.ok.injEq, Prod.mk.injEq] at h
    rw [← h.2]
    simp only [List.length_drop]
    omega

/-- Claim C10: parsing one line is total.  Every definition of this
development is a total Lean function, and the statements here record why
the source's loops terminate: a successful `parse_duration_part` strictly
consumes input, a successful `take_field` never grows the remaining span,
the whitespace skipper never grows it, and the fueled duration loop is
independent of the fuel whenever the fuel covers the input (so
`parse_duration`, which passes the input length, computes the source's
unbounded loop). -/
theorem claim_C10_termination :
    (∀ (input : List ℕ) (d : Duration) (rest : List ℕ),
      parse_duration_part input = .ok (d, rest) →
      rest.length < input.length) ∧
    (∀ (input : FileSpan) (fld : Spanned (Option (List ℕ))) (rest : FileSpan),
      take_field input = .ok (fld, rest) →
      rest.bytes.length ≤ input.bytes.length) ∧
    (∀ input : FileSpan,
      (take_inline_whitespace input).bytes.length ≤ input.bytes.length) ∧
    (∀ (orig : List ℕ) (fuel1 fuel2 : ℕ) (acc : Duration) (input : List ℕ),
      input.length ≤ fuel1 → input.length ≤ fuel2 →
      parse_duration_go orig fuel1 acc input =
        parse_duration_go orig fuel2 acc input) := by
  refine ⟨fun input d rest h => parse_duration_part_progress h, ?_, ?_, ?_⟩
  · intro input fld rest h
    unfold take_field at h
    split at h
    · next hbytes =>
      simp only [Except.ok.injEq, Prod.mk.injEq] at h
      rw [← h.2]
    · next b bs hbytes =>
      split_ifs at h with hq
      · exact take_field_wrap_bytes h
      · exact take_field_wrap_bytes h
  · intro input
    unfold take_inline_whitespace
    simp only [List.length_drop]
    omega
  · intro orig fuel1
    induction fuel1 with
    | zero =>
      intro fuel2 acc input h1 h2
      cases input with
      | nil => cases fuel2 <;> rfl
      | cons b rest => simp at h1
    | succ f ih =>
      intro fuel2 acc input h1 h2
      cases input with
      | nil => cases fuel2 <;> rfl
      | cons b rest =>
        cases fuel2 with
        | zero => simp at h2
        | succ f2 =>
          simp only [parse_duration_go]
          cases hp : parse_duration_part (b :: rest) with
          | error e => simp only [hp]
          | ok pr =>
            obtain ⟨d1, rest2⟩ := pr
            simp only [hp]
            cases hadd : durCheckedAdd acc d1 with
            | none => simp only [hadd]
            | some acc2 =>
              simp only [hadd]
              have hprog := parse_duration_part_progress hp
              simp only [List.length_cons] at h1 h2 hprog
              exact ih f2 acc2 rest2 (by omega) (by omega)

/-- Claim C10, witness: the strict-consumption statement applied to the
bytes of "1s", which `parse_duration_part` consumes entirely. -/
theorem claim_C10_witness :
    ([] : List ℕ).length < ([49, 115] : List ℕ).length :=
  claim_C10_termination.1 [49, 115] ⟨1, 0⟩ [] (by decide)

end MiniTmpfiles
